import Mathlib

/-
Verification of the coffee-duty application (src/app.py) against its
natural-language specification.

Shallow embedding notes:
* Naive datetimes are embedded as integer epoch seconds.  The Python
  timedelta.days is floor division of the second difference by 86400,
  embedded with Int.fdiv; datetime.hour, .minute and .weekday() are the
  usual arithmetic projections of the epoch second count (epoch day 0,
  1970-01-01, was a Thursday, Python weekday 3; Monday is 0).
* The SQLAlchemy tables are embedded as lists of records in declaration
  order; a query with filter_by becomes List.filter, count becomes
  length, order_by(selected_at.desc()).first() becomes the maximum of
  the timestamps (only the timestamp of that row is consumed).
* Python floats are embedded as rationals; round(x, 1) is embedded as
  rounding x * 10 to the nearest integer over the rationals.
* random.uniform(0, total) is embedded by passing the sampled rational
  as an explicit argument (the spec requires an injectable randomness
  source), and the database-assigned primary key of a freshly inserted
  row as an explicit nextId argument.
* The Gmail transport (send_email) has no effect on the tables modelled
  here apart from the token blob in the settings store; it is an external
  collaborator per the spec and is not modelled.
-/

namespace Coffee

/-- Person row of the people table (src/app.py, class Person). -/
structure Person where
  id : Int
  first_name : String
  last_name : Option String
  email : Option String
  default_coffee_type_id : Option Int
  is_present : Bool
  active : Bool
deriving DecidableEq

/-- Selection row of the selections table (src/app.py, class Selection). -/
structure Selection where
  id : Int
  person_id : Int
  selected_at : Int
  source : String
  slot : Option String
  email_subject : Option String
  email_body : Option String
deriving DecidableEq

/-- Database state: the people and selections tables and the settings
key-value store (class Setting; a stored value may be NULL). -/
structure DB where
  people : List Person
  selections : List Selection
  settings : List (String × Option String)
deriving DecidableEq

/-- get_setting: value of a settings row, None when the row is absent. -/
def get_setting (db : DB) (k : String) : Option String :=
  match db.settings.find? (fun kv => kv.1 == k) with
  | some kv => kv.2
  | none => none

/-- is_automation_enabled: the automation_enabled setting equals "1". -/
def is_automation_enabled (db : DB) : Bool :=
  get_setting db "automation_enabled" == some "1"

/-- Whole days between two naive datetimes, Python (now - last).days. -/
def daysBetween (now last : Int) : Int :=
  (now - last).fdiv 86400

/-- Python datetime.hour of an epoch-second timestamp. -/
def hourOf (t : Int) : Int := (t.fdiv 3600).emod 24

/-- Python datetime.minute of an epoch-second timestamp. -/
def minuteOf (t : Int) : Int := (t.fdiv 60).emod 60

/-- Epoch day number of an epoch-second timestamp. -/
def epochDay (t : Int) : Int := t.fdiv 86400

/-- Python datetime.weekday() (Monday = 0) of an epoch day number. -/
def weekdayOfDay (d : Int) : Int := (d + 3).emod 7

/-- Python datetime.weekday() of an epoch-second timestamp. -/
def weekdayOf (t : Int) : Int := weekdayOfDay (epochDay t)

/-- Python round(x, 1): x rounded to one decimal place, over the
rationals (ties follow the library round). -/
def round1 (q : ℚ) : ℚ := ((round (q * 10) : Int) : ℚ) / 10

/-- The fairness weight formula of compute_person_stats:
weight = (days + 1) / (total + 1). -/
def weightFormula (days : Int) (total : Nat) : ℚ :=
  ((days : ℚ) + 1) / ((total : ℚ) + 1)

/-- Selection.query.filter_by(person_id=p.id, source="auto").all():
the auto-source selection rows of one person. -/
def autoSelections (db : DB) (pid : Int) : List Selection :=
  db.selections.filter (fun s => s.person_id == pid && s.source == "auto")

/-- One entry of the list returned by compute_person_stats. -/
structure Stat where
  person : Person
  name : String
  total : Nat
  last_date : Option Int
  days_since : Int
  weight : ℚ
  prob : ℚ
deriving DecidableEq

/-- Loop body of compute_person_stats for one person: total and last are
taken from the auto-source rows only, days falls back to the bootstrap
value 10 when the person has no auto-source row, and the prob field is
filled in by the later normalisation pass (initially 0). -/
def statFor (db : DB) (now : Int) (p : Person) : Stat :=
  let auto := autoSelections db p.id
  let total := auto.length
  let lastDt := (auto.map (fun s => s.selected_at)).max?
  let days : Int :=
    match lastDt with
    | some t => daysBetween now t
    | none => 10
  { person := p
    name := (p.first_name ++ " " ++ p.last_name.getD "").trim
    total := total
    last_date := lastDt
    days_since := match lastDt with | some _ => days | none => 0
    weight := weightFormula days total
    prob := 0 }

/-- Person.query.filter_by(active=True)[.filter_by(is_present=True)]. -/
def eligiblePeople (db : DB) (only_present : Bool) : List Person :=
  db.people.filter (fun p => p.active && (!only_present || p.is_present))

/-- Second pass of compute_person_stats: when the total weight is
positive every prob is set to the weight share in percent rounded to one
decimal, otherwise every prob is set to 0. -/
def setProbs (stats : List Stat) : List Stat :=
  let total_weight := (stats.map (fun s => s.weight)).sum
  if 0 < total_weight then
    stats.map (fun s => { s with prob := round1 (s.weight / total_weight * 100) })
  else
    stats.map (fun s => { s with prob := 0 })

/-- compute_person_stats (src/app.py lines 330-398). -/
def compute_person_stats (db : DB) (now : Int) (only_present : Bool) : List Stat :=
  setProbs ((eligiblePeople db only_present).map (statFor db now))

/-- The positive-weight entries kept by weighted_random_choice. -/
def posStats (stats : List Stat) : List Stat :=
  stats.filter (fun s => decide (0 < s.weight))

/-- The selection loop of weighted_random_choice: upto accumulates the
weights already passed; the first entry with upto + weight >= r wins. -/
def walkChoice (r : ℚ) : ℚ → List Stat → Option Person
  | _, [] => none
  | upto, s :: rest =>
    if r ≤ upto + s.weight then some s.person
    else walkChoice r (upto + s.weight) rest

/-- weighted_random_choice (src/app.py lines 400-417): drop zero/negative
weights, walk the cumulative weights against the sample r, fall back to
the last kept entry. -/
def weighted_random_choice (stats : List Stat) (r : ℚ) : Option Person :=
  let pos := posStats stats
  if pos.isEmpty then none
  else
    match walkChoice r 0 pos with
    | some p => some p
    | none => pos.getLast?.map (fun s => s.person)

/-- Slot rule of run_auto_selection: morning before noon, else afternoon. -/
def slotFor (now : Int) : String :=
  if hourOf now < 12 then "morning" else "afternoon"

/-- Python str(x) of an optional string; None renders as "None"
(the email body interpolates last_name without an or-default). -/
def pyStrOpt : Option String → String
  | some s => s
  | none => "None"

/-- Two-digit zero padding for strftime day and month fields. -/
def pad2 (n : Int) : String :=
  if n < 10 then "0" ++ toString n else toString n

/-- Civil (year, month, day) of an epoch day number (proleptic Gregorian
calendar, the standard days-to-civil conversion). -/
def civilFromDays (z0 : Int) : Int × Int × Int :=
  let z := z0 + 719468
  let era := z.fdiv 146097
  let doe := z - era * 146097
  let yoe := (doe - doe.fdiv 1460 + doe.fdiv 36524 - doe.fdiv 146096).fdiv 365
  let y := yoe + era * 400
  let doy := doe - (365 * yoe + yoe.fdiv 4 - yoe.fdiv 100)
  let mp := (5 * doy + 2).fdiv 153
  let d := doy - (153 * mp + 2).fdiv 5 + 1
  let m := mp + (if mp < 10 then 3 else -9)
  (if m ≤ 2 then y + 1 else y, m, d)

/-- strftime of a date in the %d.%m.%Y format used by the email bodies. -/
def formatDMY (day : Int) : String :=
  let c := civilFromDays day
  pad2 c.2.2 ++ "." ++ pad2 c.2.1 ++ "." ++ toString c.1

/-- The while loop advancing a day number past Saturday and Sunday.  The
loop runs at most two iterations, so a fuel of 7 is exact. -/
def skipWeekendAux : Nat → Int → Int
  | 0, d => d
  | n + 1, d => if 5 ≤ weekdayOfDay d then skipWeekendAux n (d + 1) else d

/-- next_dt advance of the afternoon branch of build_email_content. -/
def skipWeekend (d : Int) : Int := skipWeekendAux 7 d

/-- build_email_content (src/app.py lines 276-325): subject and body for
the given slot and selected person. -/
def build_email_content (now : Int) (p : Person) (slot : String) :
    String × String :=
  if slot == "morning" then
    let nextDateStr := formatDMY (epochDay now)
    ("Dežurni za jutranji termin",
     "Pozdravljeni,\n\nZa jutranji termin (8:30) je dežurni:\n- "
       ++ p.first_name ++ " " ++ pyStrOpt p.last_name
       ++ ".\n\nNaslednji žreb bo " ++ nextDateStr
       ++ " ob 13:15.\n\nLep pozdrav,\nSistem za dežurstvo kuhanja kave ☕")
  else if slot == "afternoon" then
    let nextDateStr := formatDMY (skipWeekend (epochDay now + 1))
    ("Dežurni za popoldanski termin",
     "Pozdravljeni,\n\nZa popoldanski termin (13:30) je dežurni:\n- "
       ++ p.first_name ++ " " ++ pyStrOpt p.last_name
       ++ ".\n\nNaslednji žreb bo " ++ nextDateStr
       ++ " ob 08:15.\n\nLep pozdrav,\nSistem za dežurstvo kuhanja kave ☕")
  else
    ("Dežurni za kavo",
     "Pozdravljeni,\n\nDežurni za kuhanje kave je:\n- "
       ++ p.first_name ++ " " ++ pyStrOpt p.last_name
       ++ ".\n\nLep pozdrav,\nSistem za dežurstvo kuhanja kave ☕")

/-- run_auto_selection (src/app.py lines 419-455).  r is the injected
uniform sample, nextId the primary key the storage assigns to the new
row.  Returns the (ok, message) pair and the new database state; the
second commit of the email branch backfills the subject and body of the
freshly inserted row. -/
def run_auto_selection (db : DB) (now : Int) (r : ℚ) (nextId : Int) :
    (Bool × String) × DB :=
  if is_automation_enabled db = false then
    ((false, "Avtomatika je izklopljena."), db)
  else
    let stats := compute_person_stats db now true
    if stats.isEmpty then
      ((false, "Ni prisotnih oseb za avtomatski žreb."), db)
    else
      match weighted_random_choice stats r with
      | none => ((false, "Ni mogoče izvesti avtomatskega žreba."), db)
      | some person =>
        let slot := slotFor now
        let sel : Selection :=
          { id := nextId, person_id := person.id, selected_at := now,
            source := "auto", slot := some slot,
            email_subject := none, email_body := none }
        let msg := "Izbran je bil " ++ person.first_name ++ " "
          ++ person.last_name.getD "" ++ " (AUTO, " ++ slot ++ ")."
        match person.email with
        | none => ((true, msg), { db with selections := db.selections ++ [sel] })
        | some _ =>
          let sb := build_email_content now person slot
          ((true, msg),
           { db with selections := db.selections ++
               [{ sel with email_subject := some sb.1, email_body := some sb.2 }] })

/-- send_email_now route (src/app.py lines 725-745): looks up the
selection, requires the person to have an email, then backfills
email_subject, email_body and slot on that row. -/
def send_email_now (db : DB) (selection_id : Int) (slotArg : String)
    (now : Int) : DB :=
  match db.selections.find? (fun s => s.id == selection_id) with
  | none => db
  | some sel =>
    match db.people.find? (fun p => p.id == sel.person_id) with
    | none => db
    | some person =>
      match person.email with
      | none => db
      | some _ =>
        let sb := build_email_content now person slotArg
        { db with selections := db.selections.map (fun s =>
            if s.id == sel.id then
              { s with email_subject := some sb.1, email_body := some sb.2,
                       slot := some slotArg }
            else s) }

/-- send_email_custom route (src/app.py lines 760-785): like
send_email_now but with caller-supplied subject and body, rejected when
either trims to empty. -/
def send_email_custom (db : DB) (selection_id : Int)
    (slotArg subjectArg bodyArg : String) : DB :=
  match db.selections.find? (fun s => s.id == selection_id) with
  | none => db
  | some sel =>
    match db.people.find? (fun p => p.id == sel.person_id) with
    | none => db
    | some person =>
      match person.email with
      | none => db
      | some _ =>
        let subject := subjectArg.trim
        let body := bodyArg.trim
        if subject == "" || body == "" then db
        else
          { db with selections := db.selections.map (fun s =>
              if s.id == sel.id then
                { s with email_subject := some subject,
                         email_body := some body, slot := some slotArg }
              else s) }

/-- reset_statistics route (src/app.py lines 815-822):
Selection.query.delete() removes every selection row. -/
def reset_statistics (db : DB) : DB :=
  { db with selections := [] }

/-
Definitions stated from the words of the specification, for comparison with
the functions embedded from the source above.
-/

/-- Stated from the spec: total(p), the count of the auto-source
selection rows of person p. -/
def claimAutoTotal (db : DB) (p : Person) : Nat :=
  db.selections.countP (fun s => decide (s.source = "auto" ∧ s.person_id = p.id))

/-- Stated from the spec: days_since(p), the whole number of days
between now and the most recent auto-source selection of p, or the bootstrap
value 10 when p has none. -/
def claimDaysSince (db : DB) (now : Int) (p : Person) : Int :=
  match ((db.selections.filter
      (fun s => decide (s.source = "auto" ∧ s.person_id = p.id))).map
      (fun s => s.selected_at)).max? with
  | some t => (now - t).fdiv 86400
  | none => 10

/-- Stated from the claim C3 as written: the first person whose
cumulative weight strictly exceeds the sample. -/
def claimStrictChoice (r : ℚ) : ℚ → List Stat → Option Person
  | _, [] => none
  | upto, s :: rest =>
    if upto + s.weight > r then some s.person
    else claimStrictChoice r (upto + s.weight) rest

/-- Stated from the amended claim C3: the first person whose cumulative
weight is greater than or equal to the sample. -/
def claimCumChoice (r : ℚ) : ℚ → List Stat → Option Person
  | _, [] => none
  | upto, s :: rest =>
    if upto + s.weight ≥ r then some s.person
    else claimCumChoice r (upto + s.weight) rest

/-- Stated from the claim C6 as written: hour 8 yields morning, every
other hour yields afternoon. -/
def claimSlotRule (h : Int) : String :=
  if h = 8 then "morning" else "afternoon"

/-- Projection of the Selection fields that claim C9 calls immutable
apart from slot: primary key, person reference, timestamp, source. -/
def selCore (s : Selection) : Int × Int × Int × String :=
  (s.id, s.person_id, s.selected_at, s.source)

/-
Concrete test fixtures used by counterexamples and witnesses.
-/

/-- Fixture person A: never auto-selected, no email. -/
def personA : Person :=
  { id := 1, first_name := "A", last_name := none, email := none,
    default_coffee_type_id := none, is_present := true, active := true }

/-- Fixture person B: auto-selected five times today. -/
def personB : Person :=
  { id := 2, first_name := "B", last_name := none, email := none,
    default_coffee_type_id := none, is_present := true, active := true }

/-- Fixture clock: epoch day 100, midnight. -/
def nowC1 : Int := 8640000

/-- Fixture auto-source selection row. -/
def autoSel (i pid t : Int) : Selection :=
  { id := i, person_id := pid, selected_at := t, source := "auto",
    slot := some "morning", email_subject := none, email_body := none }

/-- Fixture database: A with no history, B with five auto selections
made at the current instant. -/
def dbC1 : DB :=
  { people := [personA, personB],
    selections := [autoSel 1 2 nowC1, autoSel 2 2 nowC1, autoSel 3 2 nowC1,
                   autoSel 4 2 nowC1, autoSel 5 2 nowC1],
    settings := [] }

/-- A throwaway Stat used as the default argument of List.getD. -/
def dStat : Stat :=
  { person := personA, name := "", total := 0, last_date := none,
    days_since := 0, weight := 0, prob := 0 }

/-- The first stat entry of the dbC1 fixture (person A). -/
def statA : Stat := (compute_person_stats dbC1 nowC1 false).getD 0 dStat

/-- Fixture database with one present active person and automation
enabled, and the same with an added manual selection row. -/
def dbMon : DB :=
  { people := [personA], selections := [],
    settings := [("automation_enabled", some "1")] }

/-- A manual-source selection row for the C2 witness. -/
def manualSel : Selection :=
  { id := 9, person_id := 1, selected_at := 100, source := "manual",
    slot := none, email_subject := none, email_body := none }

/-- dbMon with an extra manual selection row. -/
def dbMonManual : DB :=
  { dbMon with selections := dbMon.selections ++ [manualSel] }

/-- Fixture clock: Monday 1970-01-05 at 09:00:00 (weekday 0, hour 9,
minute 0) — not one of the 08:15 / 13:15 run moments of the spec. -/
def nowMon : Int := 378000

/-- Fixture database with automation disabled (no settings at all). -/
def dbOff : DB := { people := [personA], selections := [], settings := [] }

/-- Fixture database with automation enabled but an empty people table. -/
def dbEmpty : DB :=
  { people := [], selections := [],
    settings := [("automation_enabled", some "1")] }

/-- A Stat carrying an explicit weight, for draw fixtures. -/
def mkStat (p : Person) (w : ℚ) : Stat :=
  { person := p, name := p.first_name, total := 0, last_date := none,
    days_since := 0, weight := w, prob := 0 }

/-- Fixture person with an email address, for the send routes. -/
def personE : Person :=
  { id := 1, first_name := "E", last_name := some "F", email := some "e@x.si",
    default_coffee_type_id := none, is_present := true, active := true }

/-- Fixture database with one manual selection row slotted morning,
whose person has an email address. -/
def dbSel : DB :=
  { people := [personE],
    selections := [{ id := 1, person_id := 1, selected_at := 0, source := "manual",
                     slot := some "morning", email_subject := none,
                     email_body := none }],
    settings := [] }

/-- Fixture database for the reset counterexample: one auto and one
manual selection row. -/
def dbReset : DB :=
  { people := [personA, personB],
    selections := [autoSel 1 2 0,
                   { id := 2, person_id := 1, selected_at := 50, source := "manual",
                     slot := none, email_subject := none, email_body := none }],
    settings := [] }

/-
Helper lemmas.
-/

theorem setProbs_map_weight (l : List Stat) :
    (setProbs l).map (fun s => s.weight) = l.map (fun s => s.weight) := by
  simp only [setProbs]
  split <;> simp [List.map_map]

theorem setProbs_mem {l : List Stat} {s : Stat} (h : s ∈ setProbs l) :
    ∃ s0 ∈ l, s.person = s0.person ∧ s.weight = s0.weight ∧
      s.last_date = s0.last_date ∧ s.total = s0.total ∧
      s.days_since = s0.days_since := by
  simp only [setProbs] at h
  split at h <;>
  · obtain ⟨s0, hs0, rfl⟩ := List.mem_map.mp h
    exact ⟨s0, hs0, rfl, rfl, rfl, rfl, rfl⟩

theorem autoPred_eq (pid : Int) (s : Selection) :
    (s.person_id == pid && s.source == "auto") =
      decide (s.source = "auto" ∧ s.person_id = pid) := by
  by_cases h1 : s.person_id = pid <;> by_cases h2 : s.source = "auto" <;>
    simp [h1, h2]

theorem autoSelections_eq_claim (db : DB) (pid : Int) :
    autoSelections db pid =
      db.selections.filter
        (fun s => decide (s.source = "auto" ∧ s.person_id = pid)) := by
  unfold autoSelections
  exact List.filter_congr (fun s _ => autoPred_eq pid s)

/-- statFor in terms of the spec-side total and days functions. -/
theorem statFor_weight (db : DB) (now : Int) (p : Person) :
    (statFor db now p).weight =
      weightFormula (claimDaysSince db now p) (claimAutoTotal db p) := by
  simp only [statFor, claimDaysSince, claimAutoTotal, daysBetween]
  rw [List.countP_eq_length_filter, ← autoSelections_eq_claim]

/-
C1.
-/

/-- C1: for every entry of the list computed by compute_person_stats,
the fairness weight equals (days_since + 1) / (total + 1), where total
counts the auto-source selections of the person and days_since is the whole
number of days since the most recent auto-source selection, or the
bootstrap value 10 when there is none. -/
theorem c1_weight_formula (db : DB) (now : Int) (only_present : Bool)
    (s : Stat) (hmem : s ∈ compute_person_stats db now only_present) :
    s.weight = ((claimDaysSince db now s.person : ℚ) + 1) /
      ((claimAutoTotal db s.person : ℚ) + 1) := by
  obtain ⟨s0, hs0, hp, hw, -, -, -⟩ := setProbs_mem hmem
  obtain ⟨p, -, rfl⟩ := List.mem_map.mp hs0
  have hperson : (statFor db now p).person = p := rfl
  rw [hw, hp, hperson, statFor_weight]
  rfl

/-- C1 witness: in the fixture database, person A (total 0, never
auto-selected) is the first stats entry; the theorem applies to it, and
its weight is the claimed 11; person B (total 5, last auto-selected at
the current instant) gets the claimed weight 1/6. -/
theorem c1_weight_formula_witness :
    statA ∈ compute_person_stats dbC1 nowC1 false ∧
    statA.weight = ((claimDaysSince dbC1 nowC1 statA.person : ℚ) + 1) /
      ((claimAutoTotal dbC1 statA.person : ℚ) + 1) ∧
    statA.weight = 11 ∧
    (statFor dbC1 nowC1 personB).weight = 1 / 6 := by
  have hmem : statA ∈ compute_person_stats dbC1 nowC1 false := by
    norm_num [statA, compute_person_stats, setProbs, statFor, autoSelections,
      eligiblePeople, dbC1, personA, personB, nowC1, autoSel, weightFormula,
      daysBetween, Int.fdiv]
  refine ⟨hmem, c1_weight_formula dbC1 nowC1 false statA hmem, ?_, ?_⟩
  · norm_num [statA, compute_person_stats, setProbs, statFor, autoSelections,
      eligiblePeople, dbC1, personA, personB, nowC1, autoSel, weightFormula,
      daysBetween, Int.fdiv]
  · norm_num [statFor, autoSelections, dbC1, personA, personB, nowC1, autoSel,
      weightFormula, daysBetween, Int.fdiv]

/-
C2.
-/

/-- C2: the entire stats list (and hence every total, last_date,
days_since and weight in it) depends only on the people table and on the
auto-source selection rows; any change to manual-source rows leaves it
unchanged. -/
theorem c2_manual_rows_irrelevant (db db2 : DB) (now : Int)
    (only_present : Bool) (hpeople : db2.people = db.people)
    (hauto : db2.selections.filter (fun s => s.source == "auto") =
      db.selections.filter (fun s => s.source == "auto")) :
    compute_person_stats db2 now only_present =
      compute_person_stats db now only_present := by
  have hfactor : ∀ (d : DB) (pid : Int),
      autoSelections d pid =
        (d.selections.filter (fun s => s.source == "auto")).filter
          (fun s => s.person_id == pid) := by
    intro d pid
    unfold autoSelections
    rw [List.filter_filter]
  have hsel : ∀ pid, autoSelections db2 pid = autoSelections db pid := by
    intro pid
    rw [hfactor, hfactor, hauto]
  have hstat : statFor db2 now = statFor db now := by
    funext p
    unfold statFor
    rw [hsel]
  unfold compute_person_stats eligiblePeople
  rw [hpeople, hstat]

/-- C2 witness: appending a manual-source selection row to the fixture
database leaves the computed stats unchanged. -/
theorem c2_manual_rows_irrelevant_witness :
    compute_person_stats dbMonManual 500 true =
      compute_person_stats dbMon 500 true :=
  c2_manual_rows_irrelevant dbMon dbMonManual 500 true (by rfl) (by decide)

/-
C7.
-/

/-- C7: a person never auto-selected (no last auto date) has strictly
positive weight, and the weight formula (days + 1) / (total + 1) used by
compute_person_stats is strictly decreasing in total for fixed
nonnegative days and strictly increasing in days for fixed total. -/
theorem c7_weight_monotone :
    (∀ (db : DB) (now : Int) (only_present : Bool) (s : Stat),
      s ∈ compute_person_stats db now only_present → s.last_date = none →
        0 < s.weight) ∧
    (∀ (d : Int) (t1 t2 : Nat), 0 ≤ d → t1 < t2 →
      weightFormula d t2 < weightFormula d t1) ∧
    (∀ (d1 d2 : Int) (t : Nat), d1 < d2 →
      weightFormula d1 t < weightFormula d2 t) := by
  refine ⟨?_, ?_, ?_⟩
  · intro db now only_present s hmem hnone
    obtain ⟨s0, hs0, -, hw, hl, -, -⟩ := setProbs_mem hmem
    obtain ⟨p, -, rfl⟩ := List.mem_map.mp hs0
    rw [hw]
    rw [hl] at hnone
    simp only [statFor] at hnone ⊢
    rw [hnone]
    have hpos : (0 : ℚ) < weightFormula 10 (autoSelections db p.id).length := by
      unfold weightFormula
      positivity
    simpa using hpos
  · intro d t1 t2 hd ht
    have hcast : ((t1 : ℚ)) < (t2 : ℚ) := by exact_mod_cast ht
    have hnum : (0 : ℚ) < (d : ℚ) + 1 := by positivity
    have h1 : (0 : ℚ) < (t1 : ℚ) + 1 := by positivity
    unfold weightFormula
    apply div_lt_div_of_pos_left hnum h1
    linarith
  · intro d1 d2 t hd
    have hcast : ((d1 : ℚ)) < (d2 : ℚ) := by exact_mod_cast hd
    unfold weightFormula
    rw [div_lt_div_iff_of_pos_right (by positivity)]
    linarith

/-
Lemmas about the weighted draw.
-/

theorem walkChoice_mem (l : List Stat) :
    ∀ (r upto : ℚ) (p : Person), walkChoice r upto l = some p →
      p ∈ l.map (fun s => s.person) := by
  induction l with
  | nil => intro r upto p h; simp [walkChoice] at h
  | cons s rest ih =>
    intro r upto p h
    rw [walkChoice] at h
    by_cases hc : r ≤ upto + s.weight
    · rw [if_pos hc] at h
      simp at h
      simp [h]
    · rw [if_neg hc] at h
      exact List.mem_cons_of_mem _ (ih r (upto + s.weight) p h)

theorem walkChoice_isSome (l : List Stat) :
    ∀ (r upto : ℚ), l ≠ [] →
      r ≤ upto + (l.map (fun s => s.weight)).sum →
      (walkChoice r upto l).isSome := by
  induction l with
  | nil => intro r upto h; exact absurd rfl h
  | cons s rest ih =>
    intro r upto _ hle
    rw [walkChoice]
    by_cases hc : r ≤ upto + s.weight
    · rw [if_pos hc]; rfl
    · rw [if_neg hc]
      cases rest with
      | nil =>
        exact absurd (by simpa using hle) hc
      | cons t ts =>
        apply ih r (upto + s.weight) (by simp)
        simp only [List.map_cons, List.sum_cons] at hle ⊢
        linarith

theorem sum_le_posSum (l : List Stat) :
    (l.map (fun s => s.weight)).sum ≤
      ((posStats l).map (fun s => s.weight)).sum := by
  induction l with
  | nil => simp [posStats]
  | cons s rest ih =>
    by_cases hw : 0 < s.weight
    · simp only [posStats, List.filter_cons, decide_eq_true_eq, if_pos hw,
        List.map_cons, List.sum_cons]
      simp only [posStats] at ih
      linarith
    · simp only [posStats, List.filter_cons, decide_eq_true_eq, if_neg hw,
        List.map_cons, List.sum_cons]
      simp only [posStats] at ih
      have : s.weight ≤ 0 := le_of_not_lt hw
      linarith

theorem claimCumChoice_eq_walkChoice (l : List Stat) :
    ∀ (r upto : ℚ), claimCumChoice r upto l = walkChoice r upto l := by
  induction l with
  | nil => intro r upto; rfl
  | cons s rest ih =>
    intro r upto
    rw [claimCumChoice, walkChoice, ih]

/-- C7 witness: the theorem applied to the never-auto-selected fixture
person A (weight 11 is positive) and to concrete parameter values. -/
theorem c7_weight_monotone_witness :
    0 < statA.weight ∧ weightFormula 5 3 < weightFormula 5 2 ∧
      weightFormula 4 3 < weightFormula 5 3 := by
  have hmem : statA ∈ compute_person_stats dbC1 nowC1 false := by
    norm_num [statA, compute_person_stats, setProbs, statFor, autoSelections,
      eligiblePeople, dbC1, personA, personB, nowC1, autoSel, weightFormula,
      daysBetween, Int.fdiv]
  have hnone : statA.last_date = none := by
    norm_num [statA, compute_person_stats, setProbs, statFor, autoSelections,
      eligiblePeople, dbC1, personA, personB, nowC1, autoSel, weightFormula,
      daysBetween, Int.fdiv]
  exact ⟨c7_weight_monotone.1 dbC1 nowC1 false statA hmem hnone,
    c7_weight_monotone.2.1 5 2 3 (by norm_num) (by norm_num),
    c7_weight_monotone.2.2 4 5 3 (by norm_num)⟩

/-
C3.
-/

/-- C3 counterexample: with weights 2 and 3 and sample r = 2 (a point of
the claimed range, 0 ≤ 2 < 5), the code returns the FIRST person, whose
cumulative weight 2 does not strictly exceed the sample, while the
rule of the claim — first person whose cumulative weight exceeds the sample —
names the second person.  The code compares with greater-or-equal, not
strictly. -/
theorem c3_draw_cex :
    weighted_random_choice [mkStat personA 2, mkStat personB 3] 2 =
        some personA ∧
    claimStrictChoice 2 0 [mkStat personA 2, mkStat personB 3] =
        some personB ∧
    personA ≠ personB := by
  refine ⟨?_, ?_, by decide⟩
  · norm_num [weighted_random_choice, posStats, walkChoice, mkStat, personA,
      personB]
  · norm_num [claimStrictChoice, mkStat, personA, personB]

/-- C3 amended: for every non-empty stats list and sample r in
[0, Σweight), the draw returns exactly one person from the list, namely
the first positive-weight person whose cumulative weight is greater than
or equal to the sample (the fallback line is never reached). -/
theorem c3_draw_amended (stats : List Stat) (r : ℚ) (_hne : stats ≠ [])
    (h0 : 0 ≤ r) (hlt : r < (stats.map (fun s => s.weight)).sum) :
    ∃ p, weighted_random_choice stats r = some p ∧
      claimCumChoice r 0 (posStats stats) = some p ∧
      p ∈ stats.map (fun s => s.person) := by
  have hsum : r < ((posStats stats).map (fun s => s.weight)).sum :=
    lt_of_lt_of_le hlt (sum_le_posSum stats)
  have hposne : posStats stats ≠ [] := by
    intro h
    rw [h] at hsum
    simp only [List.map_nil, List.sum_nil] at hsum
    linarith
  have hwalk : (walkChoice r 0 (posStats stats)).isSome :=
    walkChoice_isSome (posStats stats) r 0 hposne (by simpa using hsum.le)
  obtain ⟨p, hp⟩ := Option.isSome_iff_exists.mp hwalk
  refine ⟨p, ?_, ?_, ?_⟩
  · simp only [weighted_random_choice]
    rw [if_neg (by simpa [List.isEmpty_iff] using hposne), hp]
  · rw [claimCumChoice_eq_walkChoice, hp]
  · have hmem := walkChoice_mem (posStats stats) r 0 p hp
    obtain ⟨t, ht, rfl⟩ := List.mem_map.mp hmem
    exact List.mem_map.mpr ⟨t, List.mem_of_mem_filter ht, rfl⟩

/-- C3 amended witness: the draw on the two-person fixture with sample
1/2 returns some person. -/
theorem c3_draw_amended_witness :
    (weighted_random_choice [mkStat personA 2, mkStat personB 3]
      (1 / 2)).isSome := by
  obtain ⟨p, h1, -, -⟩ :=
    c3_draw_amended [mkStat personA 2, mkStat personB 3] (1 / 2)
      (by simp) (by norm_num) (by norm_num [mkStat])
  rw [h1]
  rfl

/-
Shape lemmas for run_auto_selection, shared by C4, C5 and C6.
-/

theorem run_auto_reject (db : DB) (now : Int) (r : ℚ) (nextId : Int)
    (h : is_automation_enabled db = false ∨
      compute_person_stats db now true = [] ∨
      weighted_random_choice (compute_person_stats db now true) r = none) :
    (run_auto_selection db now r nextId).1.1 = false ∧
    (run_auto_selection db now r nextId).2 = db := by
  simp only [run_auto_selection]
  split
  · exact ⟨rfl, rfl⟩
  · rename_i henabled
    split
    · exact ⟨rfl, rfl⟩
    · rename_i hnonempty
      split
      · exact ⟨rfl, rfl⟩
      · rename_i person hsome
        exfalso
        rcases h with h | h | h
        · exact henabled h
        · rw [h] at hnonempty
          exact hnonempty rfl
        · rw [h] at hsome
          exact Option.noConfusion hsome

theorem run_auto_success (db : DB) (now : Int) (r : ℚ) (nextId : Int)
    (h : (run_auto_selection db now r nextId).1.1 = true) :
    ∃ sel, (run_auto_selection db now r nextId).2.selections =
        db.selections ++ [sel] ∧
      sel.source = "auto" ∧ sel.selected_at = now ∧
      sel.slot = some (slotFor now) := by
  revert h
  simp only [run_auto_selection]
  split
  · intro h
    exact absurd h (by simp)
  · split
    · intro h
      exact absurd h (by simp)
    · split
      · intro h
        exact absurd h (by simp)
      · rename_i person hsome
        split
        · intro _
          exact ⟨_, rfl, rfl, rfl, rfl⟩
        · intro _
          exact ⟨_, rfl, rfl, rfl, rfl⟩

/-
C4.
-/

/-- C4 counterexample: at Monday 09:00 (weekday 0, hour 9, minute 0 —
not 08:15 or 13:15) with automation enabled and one present person, the
automatic draw SUCCEEDS and creates an auto Selection record; no
wall-clock gate exists in run_auto_selection. -/
theorem c4_time_gate_cex :
    weekdayOf nowMon = 0 ∧ hourOf nowMon = 9 ∧ minuteOf nowMon = 0 ∧
    (run_auto_selection dbMon nowMon 0 1).1.1 = true ∧
    (run_auto_selection dbMon nowMon 0 1).2.selections.map
        (fun s => (s.person_id, s.source)) = [(1, "auto")] := by
  refine ⟨by decide, by decide, by decide, ?_, ?_⟩ <;>
    norm_num [run_auto_selection, is_automation_enabled, get_setting,
      compute_person_stats, setProbs, statFor, autoSelections, eligiblePeople,
      dbMon, personA, nowMon, weightFormula, weighted_random_choice, posStats,
      walkChoice, slotFor, show hourOf 378000 = 9 from by decide]

/-- C4 amended: an automatic draw request is rejected with a non-fatal
(ok = false, message) result and an unchanged database exactly in the
cases the code checks — automation disabled, no eligible stats, or a
failed draw; the wall-clock time is never examined, and whenever the
run reports success an auto Selection row stamped with the current time
is appended, at any time of any day. -/
theorem c4_time_gate_amended (db : DB) (now : Int) (r : ℚ) (nextId : Int) :
    ((is_automation_enabled db = false ∨
        compute_person_stats db now true = [] ∨
        weighted_random_choice (compute_person_stats db now true) r = none) →
      (run_auto_selection db now r nextId).1.1 = false ∧
      (run_auto_selection db now r nextId).2 = db) ∧
    ((run_auto_selection db now r nextId).1.1 = true →
      ∃ sel, (run_auto_selection db now r nextId).2.selections =
          db.selections ++ [sel] ∧ sel.source = "auto" ∧
        sel.selected_at = now) := by
  constructor
  · exact run_auto_reject db now r nextId
  · intro h
    obtain ⟨sel, hsel, hsrc, htime, -⟩ := run_auto_success db now r nextId h
    exact ⟨sel, hsel, hsrc, htime⟩

/-- C4 amended witness: with automation disabled the run is rejected and
the database is unchanged. -/
theorem c4_time_gate_amended_witness :
    (run_auto_selection dbOff 0 0 1).1.1 = false ∧
    (run_auto_selection dbOff 0 0 1).2 = dbOff :=
  (c4_time_gate_amended dbOff 0 0 1).1 (Or.inl (by decide))

/-
C5.
-/

theorem wrc_none_of_zero (stats : List Stat) (r : ℚ)
    (h : ∀ s ∈ stats, s.weight = 0) :
    weighted_random_choice stats r = none := by
  have hpos : posStats stats = [] := by
    simp only [posStats, List.filter_eq_nil_iff, decide_eq_true_eq]
    intro s hs
    rw [h s hs]
    exact lt_irrefl 0
  simp [weighted_random_choice, hpos]

/-- C5: when the eligible stats list is empty, or every eligible
weight of every person is zero, the automatic selection returns an ok = false
result with a message (a value, not an exception) and the database is
unchanged — no Selection record is created. -/
theorem c5_empty_or_zero_noop (db : DB) (now : Int) (r : ℚ) (nextId : Int)
    (h : compute_person_stats db now true = [] ∨
      ∀ s ∈ compute_person_stats db now true, s.weight = 0) :
    (run_auto_selection db now r nextId).1.1 = false ∧
    (run_auto_selection db now r nextId).2 = db := by
  apply run_auto_reject
  rcases h with h | h
  · exact Or.inr (Or.inl h)
  · exact Or.inr (Or.inr (wrc_none_of_zero _ r h))

theorem setProbs_nil : setProbs [] = [] := by
  simp only [setProbs]
  split <;> rfl

/-- C5 witness: with an empty people table (automation on) the run is
rejected and the database is unchanged. -/
theorem c5_empty_or_zero_noop_witness :
    (run_auto_selection dbEmpty 7 0 1).1.1 = false ∧
    (run_auto_selection dbEmpty 7 0 1).2 = dbEmpty :=
  c5_empty_or_zero_noop dbEmpty 7 0 1
    (Or.inl (by simp [compute_person_stats, eligiblePeople, dbEmpty,
      setProbs_nil]))

/-
C6.
-/

/-- C6 counterexample: the auto selection created at hour 9 carries slot
"morning" (the rule of the code is hour < 12), while the canonical
rule — hour 8 morning, every other hour afternoon — demands "afternoon"
at hour 9. -/
theorem c6_slot_rule_cex :
    hourOf nowMon = 9 ∧
    (run_auto_selection dbMon nowMon 0 1).2.selections.map
        (fun s => s.slot) = [some "morning"] ∧
    claimSlotRule (hourOf nowMon) = "afternoon" := by
  refine ⟨by decide, ?_, by decide⟩
  norm_num [run_auto_selection, is_automation_enabled, get_setting,
    compute_person_stats, setProbs, statFor, autoSelections, eligiblePeople,
    dbMon, personA, nowMon, weightFormula, weighted_random_choice, posStats,
    walkChoice, slotFor, show hourOf 378000 = 9 from by decide]

/-- C6 amended: the slot recorded on every successfully created
automatic Selection row is derived from the current hour by the rule the
code implements: hours before 12 yield "morning", all others
"afternoon". -/
theorem c6_slot_rule_amended (db : DB) (now : Int) (r : ℚ) (nextId : Int)
    (h : (run_auto_selection db now r nextId).1.1 = true) :
    ∃ sel, (run_auto_selection db now r nextId).2.selections =
        db.selections ++ [sel] ∧
      sel.slot = some (if hourOf now < 12 then "morning" else "afternoon") := by
  obtain ⟨sel, hsel, -, -, hslot⟩ := run_auto_success db now r nextId h
  exact ⟨sel, hsel, hslot⟩

/-- C6 amended witness: the Monday 09:00 fixture run succeeds, so the
theorem applies and its appended row makes the selections non-empty. -/
theorem c6_slot_rule_amended_witness :
    (run_auto_selection dbMon nowMon 0 1).2.selections ≠ [] := by
  obtain ⟨sel, hsel, -⟩ := c6_slot_rule_amended dbMon nowMon 0 1 (by
    norm_num [run_auto_selection, is_automation_enabled, get_setting,
      compute_person_stats, setProbs, statFor, autoSelections, eligiblePeople,
      dbMon, personA, nowMon, weightFormula, weighted_random_choice, posStats,
      walkChoice, slotFor, show hourOf 378000 = 9 from by decide])
  rw [hsel]
  simp

/-
C8.
-/

theorem round1_abs (x : ℚ) : |round1 x - x| ≤ 1 / 20 := by
  have h : |x * 10 - (round (x * 10) : ℚ)| ≤ 1 / 2 := abs_sub_round (x * 10)
  have h10 : round1 x - x = -((x * 10 - (round (x * 10) : ℚ)) / 10) := by
    unfold round1
    ring
  rw [h10, abs_neg, abs_div]
  rw [show |(10 : ℚ)| = 10 from by norm_num]
  linarith

theorem roundSum_abs (l : List ℚ) :
    |(l.map round1).sum - l.sum| ≤ (l.length : ℚ) * (1 / 20) := by
  induction l with
  | nil => simp
  | cons a l ih =>
    simp only [List.map_cons, List.sum_cons, List.length_cons]
    have h1 : round1 a + (l.map round1).sum - (a + l.sum) =
        (round1 a - a) + ((l.map round1).sum - l.sum) := by ring
    rw [h1]
    calc |(round1 a - a) + ((l.map round1).sum - l.sum)| ≤
        |round1 a - a| + |(l.map round1).sum - l.sum| := abs_add _ _
      _ ≤ 1 / 20 + (l.length : ℚ) * (1 / 20) := by
          have := round1_abs a
          linarith
      _ = ((l.length : ℚ) + 1) * (1 / 20) := by ring
      _ = ((l.length + 1 : Nat) : ℚ) * (1 / 20) := by push_cast; ring

theorem sum_map_scale (l : List ℚ) (c : ℚ) :
    (l.map (fun w => w * c)).sum = l.sum * c := by
  induction l with
  | nil => simp
  | cons a l ih =>
    simp only [List.map_cons, List.sum_cons, ih]
    ring

theorem setProbs_pos (l : List Stat)
    (h : 0 < (l.map (fun s => s.weight)).sum) :
    setProbs l = l.map (fun s =>
      { s with prob := round1 (s.weight /
          (l.map (fun s => s.weight)).sum * 100) }) := by
  simp only [setProbs]
  rw [if_pos h]

theorem posStats_probMap (q : ℚ) (l : List Stat) :
    posStats (l.map (fun s => { s with prob := q })) =
      (posStats l).map (fun s => { s with prob := q }) := by
  induction l with
  | nil => rfl
  | cons s rest ih =>
    by_cases h : 0 < s.weight <;>
      simp [posStats, List.filter_cons, h, ih] <;>
      simpa [posStats] using ih

theorem walkChoice_probMap (q : ℚ) (l : List Stat) :
    ∀ (r upto : ℚ),
      walkChoice r upto (l.map (fun s => { s with prob := q })) =
        walkChoice r upto l := by
  induction l with
  | nil => intro r upto; rfl
  | cons s rest ih =>
    intro r upto
    rw [List.map_cons, walkChoice, walkChoice, ih]

theorem isEmpty_map_stat (q : ℚ) (l : List Stat) :
    (l.map (fun s => { s with prob := q })).isEmpty = l.isEmpty := by
  cases l <;> rfl

theorem wrc_probMap (stats : List Stat) (q r : ℚ) :
    weighted_random_choice (stats.map (fun s => { s with prob := q })) r =
      weighted_random_choice stats r := by
  simp only [weighted_random_choice, posStats_probMap, walkChoice_probMap,
    isEmpty_map_stat, List.getLast?_map]
  by_cases hemp : (posStats stats).isEmpty = true
  · rw [if_pos hemp, if_pos hemp]
  · rw [if_neg hemp, if_neg hemp]
    cases hw : walkChoice r 0 (posStats stats) with
    | some p => rfl
    | none =>
      rw [Option.map_map]
      cases (posStats stats).getLast? <;> rfl

/-- C8: whenever the total weight is positive, every displayed
probability equals weight / Σweight × 100 rounded to one decimal place,
the probabilities sum to 100 within the rounding tolerance (1/20 per
entry), and the probabilities do not feed the draw: overwriting every
prob field leaves weighted_random_choice unchanged for every sample. -/
theorem c8_probabilities (db : DB) (now : Int) (only_present : Bool)
    (hW : 0 < ((compute_person_stats db now only_present).map
      (fun s => s.weight)).sum) :
    (∀ s ∈ compute_person_stats db now only_present,
      s.prob = round1 (s.weight /
        ((compute_person_stats db now only_present).map
          (fun s => s.weight)).sum * 100)) ∧
    |((compute_person_stats db now only_present).map
        (fun s => s.prob)).sum - 100| ≤
      ((compute_person_stats db now only_present).length : ℚ) * (1 / 20) ∧
    (∀ (r q : ℚ), weighted_random_choice
        ((compute_person_stats db now only_present).map
          (fun s => { s with prob := q })) r =
      weighted_random_choice (compute_person_stats db now only_present) r) := by
  have hWraw : ((compute_person_stats db now only_present).map
      (fun s => s.weight)).sum =
      (((eligiblePeople db only_present).map (statFor db now)).map
        (fun s => s.weight)).sum := by
    unfold compute_person_stats
    rw [setProbs_map_weight]
  have hW0 : 0 < (((eligiblePeople db only_present).map (statFor db now)).map
      (fun s => s.weight)).sum := by rw [← hWraw]; exact hW
  have hstats : compute_person_stats db now only_present =
      ((eligiblePeople db only_present).map (statFor db now)).map (fun s =>
        { s with prob := round1 (s.weight /
            ((((eligiblePeople db only_present).map (statFor db now)).map
              (fun s => s.weight)).sum) * 100) }) := by
    unfold compute_person_stats
    exact setProbs_pos _ hW0
  refine ⟨?_, ?_, fun r q => wrc_probMap _ q r⟩
  · intro s hs
    rw [hstats] at hs
    obtain ⟨s0, -, rfl⟩ := List.mem_map.mp hs
    rw [hWraw]
  · rw [hstats]
    set raw := (eligiblePeople db only_present).map (statFor db now) with hraw
    set W : ℚ := (raw.map (fun s => s.weight)).sum with hWdef
    have hprob : (raw.map (fun s =>
        { s with prob := round1 (s.weight / W * 100) })).map (fun s => s.prob) =
        ((raw.map (fun s => s.weight / W * 100)).map round1) := by
      simp [List.map_map]
    have hlen : ((raw.map (fun s =>
        { s with prob := round1 (s.weight / W * 100) })).length : ℚ) =
        ((raw.map (fun s => s.weight / W * 100)).length : ℚ) := by
      simp
    have hsum100 : (raw.map (fun s => s.weight / W * 100)).sum = 100 := by
      have hcomp : raw.map (fun s => s.weight / W * 100) =
          (raw.map (fun s => s.weight)).map (fun w => w * (100 / W)) := by
        simp only [List.map_map]
        apply List.map_congr_left
        intro s _
        simp only [Function.comp_apply]
        ring
      rw [hcomp, sum_map_scale, ← hWdef]
      field_simp
    rw [hprob, hlen]
    have hfin := roundSum_abs (raw.map (fun s => s.weight / W * 100))
    rw [hsum100] at hfin
    exact hfin

/-- C8 witness: the fixture database has positive total weight, so the
rounded probabilities there sum to 100 within the tolerance. -/
theorem c8_probabilities_witness :
    |((compute_person_stats dbC1 nowC1 false).map
        (fun s => s.prob)).sum - 100| ≤
      ((compute_person_stats dbC1 nowC1 false).length : ℚ) * (1 / 20) :=
  (c8_probabilities dbC1 nowC1 false (by
    norm_num [compute_person_stats, setProbs, statFor, autoSelections,
      eligiblePeople, dbC1, personA, personB, nowC1, autoSel, weightFormula,
      daysBetween, Int.fdiv])).2.1

/-
C9.
-/

theorem run_auto_false (db : DB) (now : Int) (r : ℚ) (nextId : Int)
    (h : (run_auto_selection db now r nextId).1.1 = false) :
    (run_auto_selection db now r nextId).2 = db := by
  revert h
  simp only [run_auto_selection]
  split
  · intro _; rfl
  · split
    · intro _; rfl
    · split
      · intro _; rfl
      · split
        · intro h; exact absurd h (by simp)
        · intro h; exact absurd h (by simp)

/-- C9 counterexample: a send operation does change a field beyond the
email subject and body — the fixture row was created with slot
"morning", and send_email_now invoked with slot argument "manual"
overwrites the slot of the row. -/
theorem c9_immutability_cex :
    dbSel.selections.map (fun s => s.slot) = [some "morning"] ∧
    (send_email_now dbSel 1 "manual" 0).selections.map (fun s => s.slot) =
      [some "manual"] := by
  exact ⟨by decide, by decide⟩

/-- C9 amended: the send operations backfill only email_subject,
email_body and slot — the id, person reference, timestamp and source of
every Selection row are unchanged (row for row), and the automatic run
leaves every pre-existing row intact, only appending. -/
theorem c9_immutability_amended (db : DB) (i : Int) (a su bo : String)
    (now : Int) (r : ℚ) (nextId : Int) :
    (send_email_now db i a now).selections.map selCore =
        db.selections.map selCore ∧
    (send_email_custom db i a su bo).selections.map selCore =
        db.selections.map selCore ∧
    (run_auto_selection db now r nextId).2.selections.take
        db.selections.length = db.selections := by
  refine ⟨?_, ?_, ?_⟩
  · simp only [send_email_now]
    split
    · rfl
    · split
      · rfl
      · split
        · rfl
        · simp only [List.map_map]
          apply List.map_congr_left
          intro s _
          simp only [Function.comp_apply]
          split <;> rfl
  · simp only [send_email_custom]
    split
    · rfl
    · split
      · rfl
      · split
        · rfl
        · split
          · rfl
          · simp only [List.map_map]
            apply List.map_congr_left
            intro s _
            simp only [Function.comp_apply]
            split <;> rfl
  · cases hb : (run_auto_selection db now r nextId).1.1 with
    | false => rw [run_auto_false db now r nextId hb, List.take_length]
    | true =>
      obtain ⟨sel, hsel, -, -, -⟩ := run_auto_success db now r nextId hb
      rw [hsel, List.take_left]

/-
C10.
-/

/-- C10 counterexample: the fixture database holds one manual-source
row; reset_statistics empties the whole selections table, so the manual
row does not survive the reset as the claim requires. -/
theorem c10_reset_cex :
    (dbReset.selections.filter (fun s => s.source == "manual")).length = 1 ∧
    (reset_statistics dbReset).selections = [] := by
  exact ⟨by decide, by decide⟩

/-- C10 amended: reset_statistics bulk-deletes ALL Selection rows —
auto and manual alike; afterwards the selections table is empty. -/
theorem c10_reset_amended (db : DB) : (reset_statistics db).selections = [] :=
  rfl

end Coffee
